import Mathlib

/-!
Verification development for the configuration subsystem in
`presto_cpp/main/common/Configs.cpp`: the capacity-string parser
(`toCapacity` with `valueOfCapacityUnit` and `toBytesPerCapacityUnit`),
the property store (`ConfigBase`), the startup property classification
(`checkIncomingSystemProperties` / `checkIncomingNodeProperties`), the
typed facades (`SystemConfig`, `NodeConfig`) and the query-level override
store (`BaseVeloxQueryConfig`).

Machine integers are modelled as `Nat`/`Int`; the C++ `double` arithmetic
of the capacity conversion is modelled over `ℚ` (all multipliers are exact
powers of two, so in the regime carved out by the theorems the `double`
computation is exact and agrees with `ℚ`).  Maps
(`std::unordered_map` / `folly` maps) are modelled as association lists,
where only lookup/update semantics matter.
-/

namespace Presto

/-! ## Character classes of the RE2 pattern `^\s*(\d+(?:\.\d+)?)\s*([a-zA-Z]+)\s*$`

RE2 defines `\s` as the byte class `[\t\n\f\r ]` (code points 9, 10, 12,
13, 32), `\d` as `[0-9]` and `[a-zA-Z]` as the ASCII letters; a non-ASCII
code point matches none of them. -/

def isWSChar (c : Char) : Bool :=
  decide (c.toNat = 32 ∨ c.toNat = 9 ∨ c.toNat = 10 ∨ c.toNat = 12 ∨ c.toNat = 13)

def isDigitChar (c : Char) : Bool :=
  decide (48 ≤ c.toNat ∧ c.toNat ≤ 57)

def isAlphaChar (c : Char) : Bool :=
  decide ((65 ≤ c.toNat ∧ c.toNat ≤ 90) ∨ (97 ≤ c.toNat ∧ c.toNat ≤ 122))

/-- Numeric value of a decimal digit character. -/
def digitVal (c : Char) : Nat := c.toNat - 48

/-- Value of a string of decimal digits, most significant first (the value
RE2 hands to the `double` capture for the integer part). -/
def digitsToNat (l : List Char) : Nat :=
  l.foldl (fun a c => 10 * a + digitVal c) 0

/-- Exact value of the captured decimal number `ds . fs` (integer digits
`ds`, fractional digits `fs`).  The C++ code parses the capture into a
`double`; over `ℚ` this is the exact decimal value. -/
def capValue (ds fs : List Char) : ℚ :=
  (digitsToNat ds : ℚ) + (digitsToNat fs : ℚ) / (10 : ℚ) ^ fs.length

/-! ## The capacity-string parser

`toCapacity` matches its input against
`^\s*(\d+(?:\.\d+)?)\s*([a-zA-Z]+)\s*$` with `RE2::FullMatch`.  The
character classes involved are pairwise disjoint, so the greedy match is
deterministic and is computed by the span-based parser below. -/

/-- Parse the optional fractional part `(?:\.\d+)?` at the position right
after the integer digits.  If a dot is not followed by at least one digit
the whole match fails (the optional group backtracks to empty, and the
leftover dot can start neither `\s*` nor `[a-zA-Z]+`). -/
def parseNumberTail (r : List Char) : Option (List Char × List Char) :=
  match r with
  | [] => some ([], [])
  | c :: t =>
    if c = '.' then
      let fs := t.takeWhile isDigitChar
      if fs.isEmpty then none else some (fs, t.dropWhile isDigitChar)
    else some ([], r)

/-- Full match of `^\s*(\d+(?:\.\d+)?)\s*([a-zA-Z]+)\s*$`: returns the
integer digits, the fractional digits (empty when absent) and the unit
characters, or `none` when the input does not match. -/
def parseCap (s : List Char) : Option ((List Char × List Char) × List Char) :=
  let s1 := s.dropWhile isWSChar
  let ds := s1.takeWhile isDigitChar
  let r1 := s1.dropWhile isDigitChar
  if ds.isEmpty then none
  else
    match parseNumberTail r1 with
    | none => none
    | some (fs, r2) =>
      let s3 := r2.dropWhile isWSChar
      let us := s3.takeWhile isAlphaChar
      let r3 := s3.dropWhile isAlphaChar
      if us.isEmpty then none
      else if r3.all isWSChar then some ((ds, fs), us)
      else none

/-! ## Capacity units -/

inductive CapacityUnit
  | BYTE
  | KILOBYTE
  | MEGABYTE
  | GIGABYTE
  | TERABYTE
  | PETABYTE
deriving DecidableEq

/-- `toBytesPerCapacityUnit` returns `exp2` of 0, 10, 20, 30, 40, 50 as a
`double`; these are exact powers of two, modelled over `ℚ`. -/
def toBytesPerCapacityUnit (unit : CapacityUnit) : ℚ :=
  match unit with
  | .BYTE => 1
  | .KILOBYTE => 2 ^ 10
  | .MEGABYTE => 2 ^ 20
  | .GIGABYTE => 2 ^ 30
  | .TERABYTE => 2 ^ 40
  | .PETABYTE => 2 ^ 50

/-- The byte multiplier of a unit as a natural number (`exp2` of the
unit's exponent, used in theorem statements). -/
def unitMultiplier (unit : CapacityUnit) : Nat :=
  match unit with
  | .BYTE => 1
  | .KILOBYTE => 2 ^ 10
  | .MEGABYTE => 2 ^ 20
  | .GIGABYTE => 2 ^ 30
  | .TERABYTE => 2 ^ 40
  | .PETABYTE => 2 ^ 50

/-- `valueOfCapacityUnit`: the six recognized unit tokens, compared
case-sensitively; any other token is rejected (`VELOX_USER_FAIL`,
modelled as `none`). -/
def valueOfCapacityUnit (unitStr : String) : Option CapacityUnit :=
  if unitStr = "B" then some .BYTE
  else if unitStr = "kB" then some .KILOBYTE
  else if unitStr = "MB" then some .MEGABYTE
  else if unitStr = "GB" then some .GIGABYTE
  else if unitStr = "TB" then some .TERABYTE
  else if unitStr = "PB" then some .PETABYTE
  else none

inductive CapacityError
  | invalidFormat (s : String)
  | invalidUnit (u : String)
deriving DecidableEq

deriving instance DecidableEq for Except

/-- `toCapacity(from, to)`: match the capacity pattern
(`VELOX_USER_FAIL "Invalid capacity string"` on mismatch), look the unit
token up (`VELOX_USER_FAIL "Invalid capacity unit"` if unrecognized) and
return `value * (toBytesPerCapacityUnit(unit) / toBytesPerCapacityUnit(to))`
truncated to an unsigned integer (the value is nonnegative, so the
`double`-to-`uint64_t` truncation is the floor). -/
def toCapacity (from_ : String) (toUnit : CapacityUnit) : Except CapacityError Nat :=
  match parseCap from_.toList with
  | none => .error (.invalidFormat from_)
  | some ((ds, fs), us) =>
    let unitStr := String.mk us
    match valueOfCapacityUnit unitStr with
    | none => .error (.invalidUnit unitStr)
    | some unit =>
      .ok ⌊capValue ds fs * (toBytesPerCapacityUnit unit / toBytesPerCapacityUnit toUnit)⌋₊

/-! ## Association-list model of the string-keyed maps -/

/-- Lookup in a key-value mapping (`Config::get` on the stored map). -/
def mapGet (m : List (String × String)) (k : String) : Option String :=
  match m with
  | [] => none
  | (k1, v1) :: rest => if k1 = k then some v1 else mapGet rest k

/-- Update in a key-value mapping: overwrite the value when the key is
present, append the entry otherwise (`operator[]` assignment semantics). -/
def mapSet (m : List (String × String)) (k v : String) : List (String × String) :=
  match m with
  | [] => [(k, v)]
  | (k1, v1) :: rest =>
    if k1 = k then (k1, v) :: rest else (k1, v1) :: mapSet rest k v

/-! ## Errors -/

inductive PErr
  /-- `VELOX_USER_FAIL "Config is not mutable. Consider setting mutable-config
  to true."` — carries the key named in the message. -/
  | configNotMutable (mutableKey : String)
  /-- A required property is absent (`requiredProperty`). -/
  | missingRequiredProperty (key : String)
  /-- A property value is present but does not parse as the requested type. -/
  | typeMismatch (key value : String)
  /-- `VELOX_FAIL` / `VELOX_USER_FAIL` with a plain message. -/
  | veloxFail (msg : String)
deriving DecidableEq

/-- The distinguished mutability key `SystemConfig::kMutableConfig`. -/
def kMutableConfig : String := "mutable-config"

/-! ## `ConfigBase`

The C++ object holds `config_ : std::unique_ptr<velox::core::Config>`
pointing at either a `MemConfig` (immutable) or a `MemConfigMutable`, plus
the `filePath_` of the last `initialize`.  The dynamic type of `config_`
is modelled by the `isMutable` flag (`setValue`'s `dynamic_cast` probe is
a test of that flag), and the stored map by `values`. -/

structure ConfigBase where
  isMutable : Bool
  values : List (String × String)
  filePath : String
deriving DecidableEq

/-- The default constructor: an empty immutable `MemConfig`. -/
def ConfigBase.construct : ConfigBase :=
  { isMutable := false, values := [], filePath := "" }

/-- Raw lookup of a property (velox `Config::get`). -/
def ConfigBase.get (c : ConfigBase) (k : String) : Option String :=
  mapGet c.values k

/-- Partial model of `folly::to<bool>` on the common spellings; any other
string throws a conversion error. -/
def toFollyBool (s : String) : Option Bool :=
  if s = "true" || s = "1" then some true
  else if s = "false" || s = "0" then some false
  else none

/-- `ConfigBase::initialize(filePath)`: read the raw mapping (the external
reader's result is passed in as `values`), route it through the startup
diagnostics (pure logging, no state effect), read the `mutable-config`
key with `folly::to<bool>` to pick `MemConfigMutable` vs `MemConfig`, and
replace the stored snapshot and the file path wholesale. -/
def ConfigBase.initialize (_c : ConfigBase) (filePath : String)
    (values : List (String × String)) : Except PErr ConfigBase :=
  match mapGet values kMutableConfig with
  | none => .ok { isMutable := false, values := values, filePath := filePath }
  | some s =>
    match toFollyBool s with
    | some b => .ok { isMutable := b, values := values, filePath := filePath }
    | none => .error (.typeMismatch kMutableConfig s)

/-- `ConfigBase::setValue`: if `config_` is a `MemConfigMutable`
(`isMutable`), read the old value, store the new one and return the old;
otherwise fail with the config-not-mutable user error naming
`kMutableConfig`.  The store is returned alongside the result so that the
state after a failed call is visible. -/
def ConfigBase.setValue (c : ConfigBase) (propertyName value : String) :
    Except PErr (Option String) × ConfigBase :=
  if c.isMutable then
    (.ok (mapGet c.values propertyName),
      { c with values := mapSet c.values propertyName value })
  else
    (.error (.configNotMutable kMutableConfig), c)

/-- Modelled from the spec: `ConfigBase::optionalProperty` for strings
(declared in `Configs.h`, which is not among the sources): look the raw
string value up, empty if the key is absent. -/
def ConfigBase.optionalPropertyStr (c : ConfigBase) (k : String) : Option String :=
  mapGet c.values k

/-- Modelled from the spec: `ConfigBase::optionalProperty<uint64_t>`:
look the raw value up and parse it; empty if absent, `TypeMismatch` if
present but unparsable as an unsigned 64-bit integer. -/
def ConfigBase.optionalPropertyUInt64 (c : ConfigBase) (k : String) :
    Except PErr (Option Nat) :=
  match mapGet c.values k with
  | none => .ok none
  | some s =>
    match s.toNat? with
    | some n => if n < 2 ^ 64 then .ok (some n) else .error (.typeMismatch k s)
    | none => .error (.typeMismatch k s)

/-- Signed 32-bit integer parse (`folly::to<int32_t>`). -/
def parseInt32 (s : String) : Option Int :=
  match s.toInt? with
  | some v => if -(2 ^ 31) ≤ v ∧ v < 2 ^ 31 then some v else none
  | none => none

/-- Modelled from the spec: `ConfigBase::optionalProperty<int32_t>`. -/
def ConfigBase.optionalPropertyInt32 (c : ConfigBase) (k : String) :
    Except PErr (Option Int) :=
  match mapGet c.values k with
  | none => .ok none
  | some s =>
    match parseInt32 s with
    | some v => .ok (some v)
    | none => .error (.typeMismatch k s)

/-- Modelled from the spec: `ConfigBase::requiredProperty` for strings:
as the optional lookup but failing with `MissingRequiredProperty` when the
key is absent; it never substitutes a default. -/
def ConfigBase.requiredPropertyStr (c : ConfigBase) (k : String) :
    Except PErr String :=
  match mapGet c.values k with
  | some v => .ok v
  | none => .error (.missingRequiredProperty k)

/-- Modelled from the spec: `ConfigBase::requiredProperty<int32_t>`. -/
def ConfigBase.requiredPropertyInt32 (c : ConfigBase) (k : String) :
    Except PErr Int :=
  match mapGet c.values k with
  | none => .error (.missingRequiredProperty k)
  | some s =>
    match parseInt32 s with
    | some v => .ok v
    | none => .error (.typeMismatch k s)

/-! ## Startup property classification

`checkIncomingSystemProperties` / `checkIncomingNodeProperties` iterate
the incoming mapping and stream each entry into the `supported` or the
`unsupported` group according to membership in the static allow-list,
then log the two groups (informational / warning).  The classification
itself is the pure part modelled here; it never fails and never touches
the store. -/

/-- One loop iteration: stream the entry into the supported or the
unsupported group according to allow-list membership. -/
def classifyStep (known : List String)
    (acc : List (String × String) × List (String × String))
    (pair : String × String) :
    List (String × String) × List (String × String) :=
  if known.contains pair.1 then (acc.1 ++ [pair], acc.2)
  else (acc.1, acc.2 ++ [pair])

def classifyProperties (known : List String) (values : List (String × String)) :
    List (String × String) × List (String × String) :=
  values.foldl (classifyStep known) ([], [])

/-! ## Typed facades

The facade key constants live in `Configs.h` (not among the sources);
their string values are modelled from the spec's key descriptions.  All
facade theorems hold for arbitrary key strings. -/

/-- Modelled from the spec: `SystemConfig::kPrestoVersion` (process version). -/
def kPrestoVersion : String := "presto.version"

/-- Modelled from the spec: `SystemConfig::kHttpServerHttpPort` (HTTP port). -/
def kHttpServerHttpPort : String := "http-server.http.port"

/-- Modelled from the spec: `SystemConfig::kNumQueryThreads`. -/
def kNumQueryThreads : String := "num-query-threads"

/-- Modelled from the spec: `SystemConfig::kNumSpillThreads`. -/
def kNumSpillThreads : String := "num-spill-threads"

/-- Modelled from the spec: `NodeConfig::kNodeEnvironment`. -/
def kNodeEnvironment : String := "node.environment"

/-- Modelled from the spec: `NodeConfig::kNodeId`. -/
def kNodeId : String := "node.id"

/-- Modelled from the spec: `NodeConfig::kNodeIp`. -/
def kNodeIp : String := "node.ip"

/-- Modelled from the spec: `NodeConfig::kNodeLocation`. -/
def kNodeLocation : String := "node.location"

/-- Modelled from the spec: `NodeConfig::kNodeMemoryGb`. -/
def kNodeMemoryGb : String := "node.memory_gb"

namespace SystemConfig

/-- `SystemConfig::prestoVersion`: `requiredProperty(kPrestoVersion)`. -/
def prestoVersion (c : ConfigBase) : Except PErr String :=
  c.requiredPropertyStr kPrestoVersion

/-- `SystemConfig::httpServerHttpPort`: `requiredProperty<int>(kHttpServerHttpPort)`. -/
def httpServerHttpPort (c : ConfigBase) : Except PErr Int :=
  c.requiredPropertyInt32 kHttpServerHttpPort

/-- Two's-complement conversion of a C `unsigned int` value to `int32_t`
(the implicit conversion applied to `hardware_concurrency() * 4`). -/
def uint32ToInt32 (n : Nat) : Int :=
  let m : Nat := n % 2 ^ 32
  if m < 2 ^ 31 then (m : Int) else (m : Int) - 2 ^ 32

/-- `SystemConfig::numQueryThreads`: the property when present, otherwise
`std::thread::hardware_concurrency() * 4` (unsigned arithmetic converted
to `int32_t`).  The detected hardware concurrency is a parameter `hw`. -/
def numQueryThreads (c : ConfigBase) (hw : Nat) : Except PErr Int :=
  match c.optionalPropertyInt32 kNumQueryThreads with
  | .error e => .error e
  | .ok (some v) => .ok v
  | .ok none => .ok (uint32ToInt32 (hw * 4))

/-- `SystemConfig::numSpillThreads`: the property when present, otherwise
exactly `std::thread::hardware_concurrency()` (no multiplier). -/
def numSpillThreads (c : ConfigBase) (hw : Nat) : Except PErr Int :=
  match c.optionalPropertyInt32 kNumSpillThreads with
  | .error e => .error e
  | .ok (some v) => .ok v
  | .ok none => .ok (uint32ToInt32 hw)

end SystemConfig

namespace NodeConfig

/-- `NodeConfig::nodeEnvironment`: `requiredProperty(kNodeEnvironment)`. -/
def nodeEnvironment (c : ConfigBase) : Except PErr String :=
  c.requiredPropertyStr kNodeEnvironment

/-- `NodeConfig::nodeId`: `requiredProperty(kNodeId)`. -/
def nodeId (c : ConfigBase) : Except PErr String :=
  c.requiredPropertyStr kNodeId

/-- `NodeConfig::nodeLocation`: `requiredProperty(kNodeLocation)`. -/
def nodeLocation (c : ConfigBase) : Except PErr String :=
  c.requiredPropertyStr kNodeLocation

/-- Outcome of `NodeConfig::nodeMemoryGb`: a normal return, a thrown
error (`VELOX_FAIL` or a lookup/parse failure — the recoverable
error-reporting path), or `exit(1)` (the fatal process-termination path). -/
inductive NodeMemResult
  | value (v : Nat)
  | failure (e : PErr)
  | fatalExit (code : Nat)
deriving DecidableEq

/-- `NodeConfig::nodeMemoryGb(defaultNodeMemoryGb)`: resolve from the
property when present, else from the fallback function when supplied
(modelled by its return value), else `VELOX_FAIL`; if the resolved value
is zero, log and `exit(1)`. -/
def nodeMemoryGb (c : ConfigBase) (defaultNodeMemoryGb : Option Nat) :
    NodeMemResult :=
  match c.optionalPropertyUInt64 kNodeMemoryGb with
  | .error e => .failure e
  | .ok resultOpt =>
    match resultOpt, defaultNodeMemoryGb with
    | some v, _ => if v = 0 then .fatalExit 1 else .value v
    | none, some f => if f = 0 then .fatalExit 1 else .value f
    | none, none =>
      .failure (.veloxFail
        "Node memory GB was not found in NodeConfigs. Default node memory was not provided either.")

end NodeConfig

/-! ## `BaseVeloxQueryConfig` — the query-level override store

Holds a `folly::Synchronized` map `values_` and a `mutable_` flag
captured once from `SystemConfig::instance()->mutableConfig()` at
construction.  The lock only serializes access; the sequential semantics
modelled here are the per-operation effects. -/

structure BaseVeloxQueryConfig where
  isMutable : Bool
  values : List (String × String)
deriving DecidableEq

/-- `BaseVeloxQueryConfig::setValue`: fail with the config-not-mutable
user error before touching `values_` when the flag is false; otherwise
record the previous value (if any) and store the new one. -/
def BaseVeloxQueryConfig.setValue (c : BaseVeloxQueryConfig)
    (propertyName value : String) :
    Except PErr (Option String) × BaseVeloxQueryConfig :=
  if c.isMutable then
    (.ok (mapGet c.values propertyName),
      { c with values := mapSet c.values propertyName value })
  else
    (.error (.configNotMutable kMutableConfig), c)

/-- `BaseVeloxQueryConfig::getValue`: read-locked lookup; total, and by
type it cannot modify the store. -/
def BaseVeloxQueryConfig.getValue (c : BaseVeloxQueryConfig)
    (propertyName : String) : Option String :=
  mapGet c.values propertyName

/-! ## Statement-side specification of the capacity pattern

`CapPatternU s us` spells the regex
`^\s*(\d+(?:\.\d+)?)\s*([a-zA-Z]+)\s*$` out as a decomposition of the
input into whitespace, integer digits, an optional fraction, whitespace,
the unit token `us` and trailing whitespace.  It is written from the
spec's pattern and compared with the executable parser by theorem. -/

def CapPatternU (s us : List Char) : Prop :=
  ∃ w1 ds fr w2 w3,
    s = w1 ++ (ds ++ (fr ++ (w2 ++ (us ++ w3)))) ∧
    (∀ c ∈ w1, isWSChar c = true) ∧
    ds ≠ [] ∧ (∀ c ∈ ds, isDigitChar c = true) ∧
    (fr = [] ∨ ∃ fs, fr = '.' :: fs ∧ fs ≠ [] ∧ ∀ c ∈ fs, isDigitChar c = true) ∧
    (∀ c ∈ w2, isWSChar c = true) ∧
    us ≠ [] ∧ (∀ c ∈ us, isAlphaChar c = true) ∧
    (∀ c ∈ w3, isWSChar c = true)

/-- The input matches the capacity pattern with some unit token. -/
def CapPattern (s : List Char) : Prop := ∃ us, CapPatternU s us

/-- The head of `l` (if any) falsifies `p`: the next character cannot
extend a greedy `p`-run. -/
def headNot (p : Char → Bool) (l : List Char) : Prop :=
  ∀ c, l.head? = some c → p c = false

/-- The unit characters of each capacity unit token. -/
def unitSuffix (u : CapacityUnit) : List Char :=
  match u with
  | .BYTE => ['B']
  | .KILOBYTE => ['k', 'B']
  | .MEGABYTE => ['M', 'B']
  | .GIGABYTE => ['G', 'B']
  | .TERABYTE => ['T', 'B']
  | .PETABYTE => ['P', 'B']

/-- Apply a sequence of `setValue` calls to a store, keeping the store
that comes back from each call (failed calls return the store unchanged). -/
def ConfigBase.applySetOps (c : ConfigBase) (ops : List (String × String)) :
    ConfigBase :=
  ops.foldl (fun st op => (st.setValue op.1 op.2).2) c

/-! ## Helper lemmas: character classes -/

theorem digit_not_ws {c : Char} (h : isDigitChar c = true) : isWSChar c = false := by
  simp only [isDigitChar, decide_eq_true_eq] at h
  simp only [isWSChar, decide_eq_false_iff_not]
  omega

theorem ws_not_digit {c : Char} (h : isWSChar c = true) : isDigitChar c = false := by
  simp only [isWSChar, decide_eq_true_eq] at h
  simp only [isDigitChar, decide_eq_false_iff_not, not_and]
  omega

theorem alpha_not_ws {c : Char} (h : isAlphaChar c = true) : isWSChar c = false := by
  simp only [isAlphaChar, decide_eq_true_eq] at h
  simp only [isWSChar, decide_eq_false_iff_not]
  omega

theorem alpha_not_digit {c : Char} (h : isAlphaChar c = true) : isDigitChar c = false := by
  simp only [isAlphaChar, decide_eq_true_eq] at h
  simp only [isDigitChar, decide_eq_false_iff_not, not_and]
  omega

theorem ws_not_alpha {c : Char} (h : isWSChar c = true) : isAlphaChar c = false := by
  simp only [isWSChar, decide_eq_true_eq] at h
  simp only [isAlphaChar, decide_eq_false_iff_not, not_or, not_and]
  omega

theorem ws_ne_dot {c : Char} (h : isWSChar c = true) : ¬c = '.' := by
  intro e; subst e; exact absurd h (by decide)

theorem alpha_ne_dot {c : Char} (h : isAlphaChar c = true) : ¬c = '.' := by
  intro e; subst e; exact absurd h (by decide)

/-! ## Helper lemmas: greedy spans over appended segments -/

theorem headNot_nil {p : Char → Bool} : headNot p [] := by
  intro c hc; simp at hc

theorem headNot_cons {p : Char → Bool} {a : Char} {t : List Char}
    (h : p a = false) : headNot p (a :: t) := by
  intro c hc
  simp only [List.head?_cons, Option.some.injEq] at hc
  exact hc ▸ h

theorem headNot_of_all {p q : Char → Bool} {l : List Char}
    (hpq : ∀ c, q c = true → p c = false)
    (h : ∀ c ∈ l, q c = true) : headNot p l := by
  intro c hc
  cases l with
  | nil => simp at hc
  | cons a t =>
    simp only [List.head?_cons, Option.some.injEq] at hc
    exact hc ▸ hpq a (h a (by simp))

theorem headNot_append {p : Char → Bool} {l1 l2 : List Char}
    (h1 : headNot p l1) (h2 : l1 = [] → headNot p l2) :
    headNot p (l1 ++ l2) := by
  cases l1 with
  | nil => simpa using h2 rfl
  | cons a t =>
    intro c hc
    simp only [List.cons_append, List.head?_cons, Option.some.injEq] at hc
    exact h1 c (by simp [hc])

theorem headNot_ne_nil {p : Char → Bool} {l : List Char}
    (h : l ≠ []) (hh : headNot p l) :
    ∃ a t, l = a :: t ∧ p a = false := by
  cases l with
  | nil => exact absurd rfl h
  | cons a t => exact ⟨a, t, rfl, hh a rfl⟩

theorem span_append {p : Char → Bool} {l1 l2 : List Char}
    (h1 : ∀ c ∈ l1, p c = true) (h2 : headNot p l2) :
    (l1 ++ l2).takeWhile p = l1 ∧ (l1 ++ l2).dropWhile p = l2 := by
  induction l1 with
  | nil =>
    cases l2 with
    | nil => simp
    | cons b t =>
      have hb := h2 b rfl
      simp [List.takeWhile_cons, List.dropWhile_cons, hb]
  | cons a t ih =>
    have ha := h1 a (by simp)
    have ih2 := ih fun c hc => h1 c (by simp [hc])
    simp [List.takeWhile_cons, List.dropWhile_cons, ha, ih2.1, ih2.2]

theorem all_ne_nil {l : List Char} (h : l ≠ []) : l.isEmpty = false := by
  cases l with
  | nil => exact absurd rfl h
  | cons a t => rfl

theorem ne_nil_of_isEmpty_eq_false {l : List Char} (h : l.isEmpty = false) :
    l ≠ [] := by
  cases l with
  | nil => simp at h
  | cons a t => simp

/-! ## The parser matches the spelled-out pattern -/

theorem parseCap_complete {w1 ds fr w2 us w3 : List Char}
    (hw1 : ∀ c ∈ w1, isWSChar c = true)
    (hds : ds ≠ []) (hdsd : ∀ c ∈ ds, isDigitChar c = true)
    (hfr : fr = [] ∨ ∃ fs, fr = '.' :: fs ∧ fs ≠ [] ∧ ∀ c ∈ fs, isDigitChar c = true)
    (hw2 : ∀ c ∈ w2, isWSChar c = true)
    (hus : us ≠ []) (husa : ∀ c ∈ us, isAlphaChar c = true)
    (hw3 : ∀ c ∈ w3, isWSChar c = true) :
    parseCap (w1 ++ (ds ++ (fr ++ (w2 ++ (us ++ w3))))) =
      some ((ds, fr.tail), us) := by
  have hnUs : headNot isWSChar (us ++ w3) :=
    headNot_append (headNot_of_all (fun c => alpha_not_ws) husa)
      (fun h => absurd h hus)
  have hnRest2 : headNot isDigitChar (w2 ++ (us ++ w3)) :=
    headNot_append (headNot_of_all (fun c => ws_not_digit) hw2)
      (fun _ => headNot_append (headNot_of_all (fun c => alpha_not_digit) husa)
        (fun h => absurd h hus))
  have hnFr : headNot isDigitChar (fr ++ (w2 ++ (us ++ w3))) := by
    rcases hfr with rfl | ⟨fs, rfl, hfs1, hfs2⟩
    · simpa using hnRest2
    · exact headNot_cons (by decide)
  have hnDs : headNot isWSChar (ds ++ (fr ++ (w2 ++ (us ++ w3)))) :=
    headNot_append (headNot_of_all (fun c => digit_not_ws) hdsd)
      (fun h => absurd h hds)
  have step1 := span_append hw1 hnDs
  have step2 := span_append hdsd hnFr
  have step5 := span_append hw2 hnUs
  have step6 := span_append husa (headNot_of_all (fun c => ws_not_alpha) hw3)
  have hw3all : w3.all isWSChar = true := List.all_eq_true.mpr hw3
  have hTail : parseNumberTail (fr ++ (w2 ++ (us ++ w3))) =
      some (fr.tail, w2 ++ (us ++ w3)) := by
    rcases hfr with rfl | ⟨fs, rfl, hfs1, hfs2⟩
    · rcases w2 with _ | ⟨b, t⟩
      · rcases us with _ | ⟨a, t⟩
        · exact absurd rfl hus
        · have ha := husa a (by simp)
          simp [parseNumberTail, alpha_ne_dot ha]
      · have hb := hw2 b (by simp)
        simp [parseNumberTail, ws_ne_dot hb]
    · have hfsE : fs.isEmpty = false := all_ne_nil hfs1
      have sp := span_append hfs2 hnRest2
      simp [parseNumberTail, sp.1, sp.2, hfsE]
  simp only [parseCap, step1.2, step2.1, step2.2, all_ne_nil hds,
    Bool.false_eq_true, if_false, hTail, step5.2, step6.1, step6.2,
    all_ne_nil hus, hw3all, if_true]

theorem parseNumberTail_sound {r1 fs r2 : List Char}
    (h : parseNumberTail r1 = some (fs, r2)) :
    ∃ fr, r1 = fr ++ r2 ∧
      (fr = [] ∧ fs = [] ∨
        fr = '.' :: fs ∧ fs ≠ [] ∧ ∀ c ∈ fs, isDigitChar c = true) := by
  rcases r1 with _ | ⟨c, t⟩
  · simp only [parseNumberTail, Option.some.injEq, Prod.mk.injEq] at h
    obtain ⟨rfl, rfl⟩ := h
    exact ⟨[], rfl, Or.inl ⟨rfl, rfl⟩⟩
  · by_cases hc : c = '.'
    · subst hc
      have hred : parseNumberTail ('.' :: t) =
          if (t.takeWhile isDigitChar).isEmpty then none
          else some (t.takeWhile isDigitChar, t.dropWhile isDigitChar) := rfl
      rw [hred] at h
      by_cases htE : (t.takeWhile isDigitChar).isEmpty = true
      · rw [if_pos htE] at h; exact absurd h (by simp)
      · rw [if_neg htE] at h
        simp only [Option.some.injEq, Prod.mk.injEq] at h
        obtain ⟨rfl, rfl⟩ := h
        refine ⟨'.' :: t.takeWhile isDigitChar, ?_, Or.inr ⟨rfl, ?_, ?_⟩⟩
        · rw [List.cons_append, List.takeWhile_append_dropWhile]
        · exact ne_nil_of_isEmpty_eq_false (Bool.not_eq_true _ ▸ htE)
        · exact fun x hx => List.mem_takeWhile_imp hx
    · simp only [parseNumberTail, if_neg hc, Option.some.injEq, Prod.mk.injEq] at h
      obtain ⟨rfl, rfl⟩ := h
      exact ⟨[], rfl, Or.inl ⟨rfl, rfl⟩⟩

theorem parseCap_sound {s ds fs us : List Char}
    (h : parseCap s = some ((ds, fs), us)) : CapPatternU s us := by
  simp only [parseCap] at h
  by_cases hE : ((s.dropWhile isWSChar).takeWhile isDigitChar).isEmpty = true
  · rw [if_pos hE] at h; exact absurd h (by simp)
  · rw [if_neg hE] at h
    rcases hpt : parseNumberTail ((s.dropWhile isWSChar).dropWhile isDigitChar)
      with _ | ⟨fs1, r2⟩
    · rw [hpt] at h; exact absurd h (by simp)
    · simp only [hpt] at h
      by_cases husE : ((r2.dropWhile isWSChar).takeWhile isAlphaChar).isEmpty = true
      · rw [if_pos husE] at h; exact absurd h (by simp)
      · rw [if_neg husE] at h
        by_cases hall : ((r2.dropWhile isWSChar).dropWhile isAlphaChar).all isWSChar = true
        · rw [if_pos hall] at h
          obtain ⟨⟨hds1, hfs2⟩, hus1⟩ :
              ((s.dropWhile isWSChar).takeWhile isDigitChar = ds ∧ fs1 = fs) ∧
                (r2.dropWhile isWSChar).takeWhile isAlphaChar = us := by
            simpa using h
          subst hfs2
          obtain ⟨fr, hfrEq, hfrCase⟩ := parseNumberTail_sound hpt
          refine ⟨s.takeWhile isWSChar, ds, fr, r2.takeWhile isWSChar,
            (r2.dropWhile isWSChar).dropWhile isAlphaChar,
            ?_, ?_, ?_, ?_, ?_, ?_, ?_, ?_, ?_⟩
          · have e5 : us ++ (r2.dropWhile isWSChar).dropWhile isAlphaChar =
                r2.dropWhile isWSChar := by
              rw [← hus1]
              exact List.takeWhile_append_dropWhile isAlphaChar _
            have e4 : r2.takeWhile isWSChar ++ r2.dropWhile isWSChar = r2 :=
              List.takeWhile_append_dropWhile isWSChar r2
            have e2 : ds ++ (s.dropWhile isWSChar).dropWhile isDigitChar =
                s.dropWhile isWSChar := by
              rw [← hds1]
              exact List.takeWhile_append_dropWhile isDigitChar _
            conv_rhs => rw [e5, e4, ← hfrEq, e2,
              List.takeWhile_append_dropWhile isWSChar s]
          · exact fun c hc => List.mem_takeWhile_imp hc
          · exact hds1 ▸ ne_nil_of_isEmpty_eq_false (Bool.not_eq_true _ ▸ hE)
          · exact fun c hc => List.mem_takeWhile_imp (hds1 ▸ hc)
          · rcases hfrCase with ⟨rfl, _⟩ | ⟨rfl, h1, h2⟩
            · exact Or.inl rfl
            · exact Or.inr ⟨_, rfl, h1, h2⟩
          · exact fun c hc => List.mem_takeWhile_imp hc
          · exact hus1 ▸ ne_nil_of_isEmpty_eq_false (Bool.not_eq_true _ ▸ husE)
          · exact fun c hc => List.mem_takeWhile_imp (hus1 ▸ hc)
          · exact fun c hc => List.all_eq_true.mp hall c hc
        · rw [if_neg hall] at h; exact absurd h (by simp)

theorem parseCap_isSome_iff {s : List Char} :
    (parseCap s).isSome = true ↔ CapPattern s := by
  constructor
  · intro h
    rcases hp : parseCap s with _ | ⟨⟨ds, fs⟩, us⟩
    · rw [hp] at h; simp at h
    · exact ⟨us, parseCap_sound hp⟩
  · rintro ⟨us, w1, ds, fr, w2, w3, rfl, hw1, hds, hdsd, hfr, hw2, hus, husa, hw3⟩
    rw [parseCap_complete hw1 hds hdsd hfr hw2 hus husa hw3]
    rfl

theorem toBytesPerCapacityUnit_eq_natCast (u : CapacityUnit) :
    toBytesPerCapacityUnit u = (unitMultiplier u : ℚ) := by
  cases u <;> norm_num [toBytesPerCapacityUnit, unitMultiplier]

theorem unitMultiplier_pos (u : CapacityUnit) : 0 < unitMultiplier u := by
  cases u <;> norm_num [unitMultiplier]

theorem unitSuffix_ne_nil (u : CapacityUnit) : unitSuffix u ≠ [] := by
  cases u <;> simp [unitSuffix]

theorem unitSuffix_alpha (u : CapacityUnit) :
    ∀ c ∈ unitSuffix u, isAlphaChar c = true := by
  cases u <;> decide

theorem valueOfCapacityUnit_unitSuffix (u : CapacityUnit) :
    valueOfCapacityUnit (String.mk (unitSuffix u)) = some u := by
  cases u <;> rfl

theorem valueOfCapacityUnit_eq_none_iff {u : String} :
    valueOfCapacityUnit u = none ↔
      u ∉ (["B", "kB", "MB", "GB", "TB", "PB"] : List String) := by
  unfold valueOfCapacityUnit
  split_ifs with h1 h2 h3 h4 h5 h6 <;> simp_all

theorem capValue_nil_frac (ds : List Char) :
    capValue ds [] = (digitsToNat ds : ℚ) := by
  simp [capValue, digitsToNat]

/-- C1: for a valid capacity string `"{n}{u}"` with integral `n` (digit
characters `ds`) and recognized unit `u`, `toCapacity` returns exactly
`n * multiplier(u) / multiplier(target)`; in particular the target
`BYTE` yields `n * multiplier(u)` and a target equal to the source unit
yields `n`.  The hypotheses `n < 2^53` and `n * multiplier(u) < 2^64`
confine the statement to the regime where the C++ `double` computation
is exact and the `uint64_t` truncation is defined, where it agrees with
the `ℚ` model. -/
theorem toCapacity_integral_exact (ds : List Char) (u toUnit : CapacityUnit)
    (hds : ds ≠ []) (hdsd : ∀ c ∈ ds, isDigitChar c = true)
    (hexact : digitsToNat ds < 2 ^ 53)
    (hrange : digitsToNat ds * unitMultiplier u < 2 ^ 64) :
    toCapacity (String.mk (ds ++ unitSuffix u)) toUnit =
        .ok (digitsToNat ds * unitMultiplier u / unitMultiplier toUnit) ∧
      toCapacity (String.mk (ds ++ unitSuffix u)) CapacityUnit.BYTE =
        .ok (digitsToNat ds * unitMultiplier u) ∧
      toCapacity (String.mk (ds ++ unitSuffix u)) u = .ok (digitsToNat ds) := by
  have key : ∀ t : CapacityUnit, toCapacity (String.mk (ds ++ unitSuffix u)) t =
      .ok (digitsToNat ds * unitMultiplier u / unitMultiplier t) := by
    intro t
    have hnil : ∀ c ∈ ([] : List Char), isWSChar c = true := by simp
    have hp0 := parseCap_complete hnil hds hdsd (Or.inl rfl) hnil
      (unitSuffix_ne_nil u) (unitSuffix_alpha u) hnil
    have hp : parseCap (ds ++ unitSuffix u) = some ((ds, []), unitSuffix u) := by
      simpa using hp0
    have htl : (String.mk (ds ++ unitSuffix u)).toList = ds ++ unitSuffix u := rfl
    simp only [toCapacity, htl, hp, valueOfCapacityUnit_unitSuffix]
    rw [capValue_nil_frac, toBytesPerCapacityUnit_eq_natCast,
      toBytesPerCapacityUnit_eq_natCast, ← mul_div_assoc, ← Nat.cast_mul,
      Nat.floor_div_nat, Nat.floor_natCast]
  refine ⟨key toUnit, ?_, ?_⟩
  · rw [key CapacityUnit.BYTE]
    norm_num [unitMultiplier]
  · rw [key u, Nat.mul_div_cancel _ (unitMultiplier_pos u)]

/-- Witness for C1 at the spec's example: `"10GB"` in bytes is
`10 * 2^30`. -/
theorem toCapacity_integral_exact_witness :
    toCapacity "10GB" CapacityUnit.BYTE = Except.ok (10 * 2 ^ 30) :=
  (toCapacity_integral_exact ['1', '0'] CapacityUnit.GIGABYTE CapacityUnit.BYTE
    (by decide) (by decide) (by decide) (by decide)).2.1

/-- C2: the capacity parser fails with `InvalidFormat` exactly when the
input does not match the pattern (optional whitespace, non-negative
decimal number, optional whitespace, one or more alphabetic characters,
optional trailing whitespace), and fails with `InvalidUnit` exactly when
it matches the pattern but its unit token is not one of
`B, kB, MB, GB, TB, PB` (case-sensitive); in particular `"10XB"` fails
with `InvalidUnit` while `"abc"` and `""` fail with `InvalidFormat`. -/
theorem toCapacity_eq (s : String) (t : CapacityUnit) :
    toCapacity s t =
      match parseCap s.toList with
      | none => .error (.invalidFormat s)
      | some ((ds, fs), us) =>
        match valueOfCapacityUnit (String.mk us) with
        | none => .error (.invalidUnit (String.mk us))
        | some unit =>
          .ok ⌊capValue ds fs * (toBytesPerCapacityUnit unit / toBytesPerCapacityUnit t)⌋₊ :=
  rfl

theorem toCapacity_error_classification (s : String) (toUnit : CapacityUnit) :
    (toCapacity s toUnit = .error (.invalidFormat s) ↔ ¬CapPattern s.toList) ∧
      ((∃ u, toCapacity s toUnit = .error (.invalidUnit u)) ↔
        ∃ us, CapPatternU s.toList us ∧
          String.mk us ∉ (["B", "kB", "MB", "GB", "TB", "PB"] : List String)) ∧
      toCapacity "10XB" CapacityUnit.BYTE = .error (.invalidUnit "XB") ∧
      toCapacity "abc" CapacityUnit.BYTE = .error (.invalidFormat "abc") ∧
      toCapacity "" CapacityUnit.BYTE = .error (.invalidFormat "") := by
  refine ⟨?_, ?_, by decide, by decide, by decide⟩
  · constructor
    · intro heq hpat
      have hsome : (parseCap s.toList).isSome = true := parseCap_isSome_iff.mpr hpat
      rcases hp : parseCap s.toList with _ | ⟨⟨ds, fs⟩, us⟩
      · rw [hp] at hsome; simp at hsome
      · rcases hv : valueOfCapacityUnit (String.mk us) with _ | u
        · simp only [toCapacity_eq, hp, hv] at heq
          exact absurd heq (by simp)
        · simp only [toCapacity_eq, hp, hv] at heq
          exact absurd heq (by simp)
    · intro hnot
      rcases hp : parseCap s.toList with _ | ⟨⟨ds, fs⟩, us⟩
      · simp only [toCapacity_eq, hp]
      · exact absurd ⟨us, parseCap_sound hp⟩ hnot
  · constructor
    · rintro ⟨u, heq⟩
      rcases hp : parseCap s.toList with _ | ⟨⟨ds, fs⟩, us⟩
      · simp only [toCapacity_eq, hp] at heq
        exact absurd heq (by simp)
      · rcases hv : valueOfCapacityUnit (String.mk us) with _ | u1
        · exact ⟨us, parseCap_sound hp, valueOfCapacityUnit_eq_none_iff.mp hv⟩
        · simp only [toCapacity_eq, hp, hv] at heq
          exact absurd heq (by simp)
    · rintro ⟨us, ⟨w1, ds, fr, w2, w3, heqS, hw1, hds, hdsd, hfr, hw2, hus, husa, hw3⟩, hnot⟩
      have hp : parseCap s.toList = some ((ds, fr.tail), us) := by
        rw [heqS]
        exact parseCap_complete hw1 hds hdsd hfr hw2 hus husa hw3
      have hv : valueOfCapacityUnit (String.mk us) = none :=
        valueOfCapacityUnit_eq_none_iff.mpr hnot
      exact ⟨String.mk us, by simp only [toCapacity_eq, hp, hv]⟩

/-! ## Map lemmas -/

theorem mapGet_mapSet (m : List (String × String)) (k v k1 : String) :
    mapGet (mapSet m k v) k1 = if k = k1 then some v else mapGet m k1 := by
  induction m with
  | nil =>
    by_cases h : k = k1 <;> simp [mapSet, mapGet, h]
  | cons p rest ih =>
    obtain ⟨k2, v2⟩ := p
    by_cases h2 : k2 = k
    · subst h2
      by_cases h : k2 = k1 <;> simp [mapSet, mapGet, h]
    · simp only [mapSet, if_neg h2, mapGet, ih]
      by_cases h1 : k2 = k1 <;> by_cases h3 : k = k1 <;> simp_all

/-! ## `ConfigBase.setValue` lemmas -/

theorem setValue_isMutable (c : ConfigBase) (k v : String) :
    (c.setValue k v).2.isMutable = c.isMutable := by
  by_cases h : c.isMutable = true <;> simp_all [ConfigBase.setValue]

theorem setValue_immutable_state (c : ConfigBase) (k v : String)
    (h : c.isMutable = false) : (c.setValue k v).2 = c := by
  simp [ConfigBase.setValue, h]

theorem setValue_preserves_keys (c : ConfigBase) (k v k1 : String)
    (h : (mapGet c.values k1).isSome = true) :
    (mapGet (c.setValue k v).2.values k1).isSome = true := by
  by_cases hm : c.isMutable = true
  · simp only [ConfigBase.setValue, if_pos hm, mapGet_mapSet]
    by_cases he : k = k1 <;> simp [he, h]
  · rw [setValue_immutable_state c k v (by simpa using hm)]
    exact h

/-- C3: on an Immutable store, `setValue` fails with the
config-not-mutable error naming the `mutable-config` key, for every key
and value, and leaves the store unchanged. -/
theorem configBase_setValue_immutable (c : ConfigBase) (k v : String)
    (h : c.isMutable = false) :
    (c.setValue k v).1 = .error (.configNotMutable kMutableConfig) ∧
      (c.setValue k v).2 = c ∧
      kMutableConfig = "mutable-config" := by
  refine ⟨?_, setValue_immutable_state c k v h, rfl⟩
  simp [ConfigBase.setValue, h]

/-- Witness for C3 at a concrete immutable store. -/
theorem configBase_setValue_immutable_witness :
    ((ConfigBase.mk false [("a", "b")] "").setValue "k" "v").1 =
        .error (.configNotMutable kMutableConfig) ∧
      ((ConfigBase.mk false [("a", "b")] "").setValue "k" "v").2 =
        ConfigBase.mk false [("a", "b")] "" ∧
      kMutableConfig = "mutable-config" :=
  configBase_setValue_immutable (ConfigBase.mk false [("a", "b")] "") "k" "v" rfl

/-- C4: on a Mutable store, `setValue k v1` then `setValue k v2` returns
`v1` as the previous value on the second call (and nothing on the first
call when the key was absent), and a subsequent `get k` returns `v2`. -/
theorem configBase_setValue_mutable (c : ConfigBase) (k v1 v2 : String)
    (h : c.isMutable = true) :
    ((c.setValue k v1).2.setValue k v2).1 = .ok (some v1) ∧
      ((c.setValue k v1).2.setValue k v2).2.get k = some v2 ∧
      (c.get k = none → (c.setValue k v1).1 = .ok none) := by
  refine ⟨?_, ?_, ?_⟩
  · simp [ConfigBase.setValue, h, mapGet_mapSet]
  · simp [ConfigBase.setValue, ConfigBase.get, h, mapGet_mapSet]
  · intro hn
    simp only [ConfigBase.get] at hn
    simp [ConfigBase.setValue, h, hn]

/-- Witness for C4 at a concrete mutable store with an absent key. -/
theorem configBase_setValue_mutable_witness :
    (((ConfigBase.mk true [] "").setValue "k" "v1").2.setValue "k" "v2").1 =
        .ok (some "v1") ∧
      (((ConfigBase.mk true [] "").setValue "k" "v1").2.setValue "k" "v2").2.get "k" =
        some "v2" ∧
      ((ConfigBase.mk true [] "").get "k" = none →
        ((ConfigBase.mk true [] "").setValue "k" "v1").1 = .ok none) :=
  configBase_setValue_mutable (ConfigBase.mk true [] "") "k" "v1" "v2" rfl

/-- C7 counterexample: `initialize` is an operation available after
construction, and it replaces the mode: a freshly constructed store is
Immutable, yet initializing it with a mapping that sets `mutable-config`
to `"true"` yields a Mutable store — so the ConfigMode does change under
a sequence of operations that includes `initialize`. -/
theorem configBase_initialize_changes_mode :
    ConfigBase.construct.isMutable = false ∧
      ( ConfigBase.initialize ConfigBase.construct "config.properties"
          [("mutable-config", "true")]).map ConfigBase.isMutable = .ok true :=
  ⟨rfl, rfl⟩

/-- C7 (amended): under every sequence of `setValue` operations (with
`initialize` excluded, since it replaces the snapshot and the mode
wholesale), the ConfigMode never changes; an Immutable store is entirely
unchanged; and a Mutable store never loses a key. -/
theorem configBase_mode_content_invariants (c : ConfigBase)
    (ops : List (String × String)) :
    (c.applySetOps ops).isMutable = c.isMutable ∧
      (c.isMutable = false → c.applySetOps ops = c) ∧
      (∀ k, (mapGet c.values k).isSome = true →
        (mapGet (c.applySetOps ops).values k).isSome = true) := by
  induction ops generalizing c with
  | nil => exact ⟨rfl, fun _ => rfl, fun k hk => hk⟩
  | cons op rest ih =>
    have hstep : c.applySetOps (op :: rest) =
        ((c.setValue op.1 op.2).2).applySetOps rest := rfl
    obtain ⟨ih1, ih2, ih3⟩ := ih (c.setValue op.1 op.2).2
    refine ⟨?_, ?_, ?_⟩
    · rw [hstep, ih1, setValue_isMutable]
    · intro h
      rw [hstep, ih2 (by rw [setValue_isMutable]; exact h),
        setValue_immutable_state c op.1 op.2 h]
    · intro k hk
      rw [hstep]
      exact ih3 k (setValue_preserves_keys c op.1 op.2 k hk)

/-- Witness for the amended C7 at a concrete store and op sequence. -/
theorem configBase_mode_content_invariants_witness :
    ((ConfigBase.mk false [("a", "b")] "").applySetOps
        [("k", "v"), ("a", "c")]).isMutable =
      (ConfigBase.mk false [("a", "b")] "").isMutable ∧
    (ConfigBase.mk false [("a", "b")] "").applySetOps [("k", "v"), ("a", "c")] =
      ConfigBase.mk false [("a", "b")] "" :=
  ⟨(configBase_mode_content_invariants (ConfigBase.mk false [("a", "b")] "")
      [("k", "v"), ("a", "c")]).1,
    (configBase_mode_content_invariants (ConfigBase.mk false [("a", "b")] "")
      [("k", "v"), ("a", "c")]).2.1 rfl⟩

/-- C10: when the query-level override store's mutability flag is false,
`setValue` fails with the config-not-mutable error and leaves the
override mapping unchanged, so `getValue` afterwards returns exactly what
it returned before; and `getValue` is a pure lookup independent of the
flag. -/
theorem queryConfig_setValue_immutable (c : BaseVeloxQueryConfig)
    (k v k2 : String) (h : c.isMutable = false) :
    (c.setValue k v).1 = .error (.configNotMutable kMutableConfig) ∧
      (c.setValue k v).2 = c ∧
      (c.setValue k v).2.getValue k2 = c.getValue k2 ∧
      (∀ (b1 b2 : Bool) (m : List (String × String)) (k3 : String),
        (BaseVeloxQueryConfig.mk b1 m).getValue k3 =
          (BaseVeloxQueryConfig.mk b2 m).getValue k3) := by
  refine ⟨?_, ?_, ?_, fun b1 b2 m k3 => rfl⟩
  · simp [BaseVeloxQueryConfig.setValue, h]
  · simp [BaseVeloxQueryConfig.setValue, h]
  · simp [BaseVeloxQueryConfig.setValue, h]

/-- Witness for C10 at a concrete store with the flag off. -/
theorem queryConfig_setValue_immutable_witness :
    ((BaseVeloxQueryConfig.mk false [("x", "1")]).setValue "k" "v").1 =
        .error (.configNotMutable kMutableConfig) ∧
      ((BaseVeloxQueryConfig.mk false [("x", "1")]).setValue "k" "v").2 =
        BaseVeloxQueryConfig.mk false [("x", "1")] ∧
      ((BaseVeloxQueryConfig.mk false [("x", "1")]).setValue "k" "v").2.getValue "x" =
        (BaseVeloxQueryConfig.mk false [("x", "1")]).getValue "x" ∧
      (∀ (b1 b2 : Bool) (m : List (String × String)) (k3 : String),
        (BaseVeloxQueryConfig.mk b1 m).getValue k3 =
          (BaseVeloxQueryConfig.mk b2 m).getValue k3) :=
  queryConfig_setValue_immutable (BaseVeloxQueryConfig.mk false [("x", "1")])
    "k" "v" "x" rfl

/-! ## Classification lemmas -/

theorem classify_foldl (known : List String) (values : List (String × String))
    (acc1 acc2 : List (String × String)) :
    values.foldl (classifyStep known) (acc1, acc2) =
      (acc1 ++ values.filter (fun p => known.contains p.1),
        acc2 ++ values.filter (fun p => !known.contains p.1)) := by
  induction values generalizing acc1 acc2 with
  | nil => simp
  | cons p rest ih =>
    by_cases h : known.contains p.1 = true <;>
      (simp at h; simp [classifyStep, h, ih, List.filter_cons])

/-- C6: the startup classification sends every entry of the incoming
mapping to exactly one of the supported/unsupported groups according to
allow-list membership; together the two groups are a permutation of the
input (every entry covered exactly once).  The classification is a total
pure function: it cannot raise and does not touch any store. -/
theorem classifyProperties_partition (known : List String)
    (values : List (String × String)) :
    (classifyProperties known values).1 =
        values.filter (fun p => known.contains p.1) ∧
      (classifyProperties known values).2 =
        values.filter (fun p => !known.contains p.1) ∧
      ((classifyProperties known values).1 ++
        (classifyProperties known values).2).Perm values ∧
      (∀ p, p ∈ (classifyProperties known values).1 ↔
        p ∈ values ∧ known.contains p.1 = true) ∧
      (∀ p, p ∈ (classifyProperties known values).2 ↔
        p ∈ values ∧ known.contains p.1 = false) := by
  have h := classify_foldl known values [] []
  have h1 : (classifyProperties known values).1 =
      values.filter (fun p => known.contains p.1) := by
    simp [classifyProperties, h]
  have h2 : (classifyProperties known values).2 =
      values.filter (fun p => !known.contains p.1) := by
    simp [classifyProperties, h]
  refine ⟨h1, h2, ?_, ?_, ?_⟩
  · rw [h1, h2]
    exact List.filter_append_perm _ values
  · intro p
    rw [h1]
    simp [List.mem_filter]
  · intro p
    rw [h2]
    simp [List.mem_filter]

/-- C5: `nodeMemoryGb` resolves from the property when present, else from
the fallback; absent-with-no-fallback takes the recoverable
error-reporting path (`VELOX_FAIL`, never a silent 0 — the function can
never return the value 0), while a resolved value of zero takes the
distinct fatal `exit(1)` path. -/
theorem nodeMemoryGb_resolution (c : ConfigBase) (fb : Option Nat) :
    (∀ v, c.optionalPropertyUInt64 kNodeMemoryGb = .ok (some v) →
        NodeConfig.nodeMemoryGb c fb =
          if v = 0 then .fatalExit 1 else .value v) ∧
      (c.optionalPropertyUInt64 kNodeMemoryGb = .ok none →
        ∀ m, fb = some m →
          NodeConfig.nodeMemoryGb c fb =
            if m = 0 then .fatalExit 1 else .value m) ∧
      (c.optionalPropertyUInt64 kNodeMemoryGb = .ok none → fb = none →
        NodeConfig.nodeMemoryGb c fb =
          .failure (.veloxFail
            "Node memory GB was not found in NodeConfigs. Default node memory was not provided either.")) ∧
      (∀ (msg : String) (code : Nat),
        NodeConfig.NodeMemResult.failure (.veloxFail msg) ≠
          NodeConfig.NodeMemResult.fatalExit code) ∧
      NodeConfig.nodeMemoryGb c fb ≠ .value 0 := by
  refine ⟨?_, ?_, ?_, fun msg code => by simp, ?_⟩
  · intro v hv
    simp [NodeConfig.nodeMemoryGb, hv]
  · intro h0 m hm
    subst hm
    simp [NodeConfig.nodeMemoryGb, h0]
  · intro h0 hm
    subst hm
    simp [NodeConfig.nodeMemoryGb, h0]
  · rcases hv : c.optionalPropertyUInt64 kNodeMemoryGb with e | o
    · simp [NodeConfig.nodeMemoryGb, hv]
    · rcases o with _ | v
      · rcases fb with _ | m
        · simp [NodeConfig.nodeMemoryGb, hv]
        · by_cases hm : m = 0 <;> simp [NodeConfig.nodeMemoryGb, hv, hm]
      · by_cases hz : v = 0 <;> simp [NodeConfig.nodeMemoryGb, hv, hz]

/-- Witness for C5: fallback 8 resolves, fallback 0 is the fatal path,
no fallback is the error path. -/
theorem nodeMemoryGb_resolution_witness :
    NodeConfig.nodeMemoryGb (ConfigBase.mk false [] "") (some 8) = .value 8 ∧
      NodeConfig.nodeMemoryGb (ConfigBase.mk false [] "") (some 0) = .fatalExit 1 ∧
      NodeConfig.nodeMemoryGb (ConfigBase.mk false [] "") none =
        .failure (.veloxFail
          "Node memory GB was not found in NodeConfigs. Default node memory was not provided either.") := by
  refine ⟨?_, ?_, ?_⟩
  · have h := (nodeMemoryGb_resolution (ConfigBase.mk false [] "") (some 8)).2.1
      rfl 8 rfl
    simpa using h
  · have h := (nodeMemoryGb_resolution (ConfigBase.mk false [] "") (some 0)).2.1
      rfl 0 rfl
    simpa using h
  · exact (nodeMemoryGb_resolution (ConfigBase.mk false [] "") none).2.2.1 rfl rfl

/-- C8: `requiredProperty` on an absent key fails with
`MissingRequiredProperty` and never returns a default; instantiated for
the required typed accessors of the facades (presto version, HTTP port,
node environment, node identifier, node location). -/
theorem requiredProperty_missing (c : ConfigBase) :
    (∀ k, mapGet c.values k = none →
        c.requiredPropertyStr k = .error (.missingRequiredProperty k) ∧
          c.requiredPropertyInt32 k = .error (.missingRequiredProperty k)) ∧
      (mapGet c.values kPrestoVersion = none →
        SystemConfig.prestoVersion c =
          .error (.missingRequiredProperty kPrestoVersion)) ∧
      (mapGet c.values kHttpServerHttpPort = none →
        SystemConfig.httpServerHttpPort c =
          .error (.missingRequiredProperty kHttpServerHttpPort)) ∧
      (mapGet c.values kNodeEnvironment = none →
        NodeConfig.nodeEnvironment c =
          .error (.missingRequiredProperty kNodeEnvironment)) ∧
      (mapGet c.values kNodeId = none →
        NodeConfig.nodeId c = .error (.missingRequiredProperty kNodeId)) ∧
      (mapGet c.values kNodeLocation = none →
        NodeConfig.nodeLocation c =
          .error (.missingRequiredProperty kNodeLocation)) := by
  have hstr : ∀ k, mapGet c.values k = none →
      c.requiredPropertyStr k = .error (.missingRequiredProperty k) := by
    intro k hk
    simp [ConfigBase.requiredPropertyStr, hk]
  have hint : ∀ k, mapGet c.values k = none →
      c.requiredPropertyInt32 k = .error (.missingRequiredProperty k) := by
    intro k hk
    simp [ConfigBase.requiredPropertyInt32, hk]
  exact ⟨fun k hk => ⟨hstr k hk, hint k hk⟩, hstr kPrestoVersion,
    hint kHttpServerHttpPort, hstr kNodeEnvironment, hstr kNodeId,
    hstr kNodeLocation⟩

/-- Witness for C8 at the empty store. -/
theorem requiredProperty_missing_witness :
    SystemConfig.prestoVersion (ConfigBase.mk false [] "") =
        .error (.missingRequiredProperty kPrestoVersion) ∧
      NodeConfig.nodeEnvironment (ConfigBase.mk false [] "") =
        .error (.missingRequiredProperty kNodeEnvironment) :=
  ⟨(requiredProperty_missing (ConfigBase.mk false [] "")).2.1 rfl,
    (requiredProperty_missing (ConfigBase.mk false [] "")).2.2.2.1 rfl⟩

/-- C9: with the property absent, `numQueryThreads` defaults to four
times the detected hardware concurrency while `numSpillThreads` defaults
to exactly the hardware concurrency; with the property present and
parsable, each returns the parsed value.  The bound `hw * 4 < 2^31`
keeps the C++ unsigned-to-`int32_t` conversion value-preserving. -/
theorem threads_defaults (c : ConfigBase) (hw : Nat) (hhw : hw * 4 < 2 ^ 31) :
    (mapGet c.values kNumQueryThreads = none →
        SystemConfig.numQueryThreads c hw = .ok ((hw * 4 : Nat) : Int)) ∧
      (mapGet c.values kNumSpillThreads = none →
        SystemConfig.numSpillThreads c hw = .ok ((hw : Nat) : Int)) ∧
      (∀ s v, mapGet c.values kNumQueryThreads = some s → parseInt32 s = some v →
        SystemConfig.numQueryThreads c hw = .ok v) ∧
      (∀ s v, mapGet c.values kNumSpillThreads = some s → parseInt32 s = some v →
        SystemConfig.numSpillThreads c hw = .ok v) := by
  have hconv : ∀ n : Nat, n < 2 ^ 31 →
      SystemConfig.uint32ToInt32 n = ((n : Nat) : Int) := by
    intro n hn
    have hmod : n % 2 ^ 32 = n := Nat.mod_eq_of_lt (by omega)
    simp only [SystemConfig.uint32ToInt32, hmod]
    rw [if_pos hn]
  refine ⟨?_, ?_, ?_, ?_⟩
  · intro habs
    have hopt : c.optionalPropertyInt32 kNumQueryThreads = .ok none := by
      simp [ConfigBase.optionalPropertyInt32, habs]
    simp [SystemConfig.numQueryThreads, hopt, hconv (hw * 4) hhw]
  · intro habs
    have hopt : c.optionalPropertyInt32 kNumSpillThreads = .ok none := by
      simp [ConfigBase.optionalPropertyInt32, habs]
    simp [SystemConfig.numSpillThreads, hopt, hconv hw (by omega)]
  · intro s v hs hv
    have hopt : c.optionalPropertyInt32 kNumQueryThreads = .ok (some v) := by
      simp [ConfigBase.optionalPropertyInt32, hs, hv]
    simp [SystemConfig.numQueryThreads, hopt]
  · intro s v hs hv
    have hopt : c.optionalPropertyInt32 kNumSpillThreads = .ok (some v) := by
      simp [ConfigBase.optionalPropertyInt32, hs, hv]
    simp [SystemConfig.numSpillThreads, hopt]

/-- Witness for C9 at the empty store with 8 detected cores. -/
theorem threads_defaults_witness :
    SystemConfig.numQueryThreads (ConfigBase.mk false [] "") 8 = .ok 32 ∧
      SystemConfig.numSpillThreads (ConfigBase.mk false [] "") 8 = .ok 8 :=
  ⟨(threads_defaults (ConfigBase.mk false [] "") 8 (by decide)).1 rfl,
    (threads_defaults (ConfigBase.mk false [] "") 8 (by decide)).2.1 rfl⟩

end Presto
